import Mathlib

/-!
Shallow embedding of the repository source file `Imperva_IP.py` (an
incident-polling tool that extracts attacker IPs and victim domains,
merges them into persisted files and tracks a watermark timestamp).

Modelling conventions:
* Python's untyped JSON-like values are the inductive `PyVal`
  (strings, integers, lists, dicts as insertion-ordered association lists).
* Fallible Python code is `Except PyErr` (`TypeError`, `ValueError`,
  `AttributeError`, `KeyError`).
* Files are modelled by their content: newline-delimited list files as
  `List String` (the written lines), the detailed JSON file as an
  insertion-ordered association list `List (String × List String)`,
  and the filesystem used by the watermark store as `String → Option String`.
* Python `set` iteration order is unspecified; wherever the source turns a
  set back into a list (`list(set(a).union(set(b)))`) we fix the
  deterministic order given by `List.dedup` followed by the new elements.
* The unbounded `while` loop of the paginated fetcher takes explicit fuel;
  `none` means the loop did not finish within the given fuel.
-/

/-- Python exception kinds raised by the code paths that are modelled. -/
inductive PyErr where
  | typeError
  | valueError
  | attributeError
  | keyError
deriving DecidableEq

/-- Untyped Python/JSON values: strings, integers, lists and dicts
(insertion-ordered association lists keyed by strings). -/
inductive PyVal where
  | pstr : String → PyVal
  | pint : Int → PyVal
  | plist : List PyVal → PyVal
  | pdict : List (String × PyVal) → PyVal

/-- Characters removed by Python `str.strip()` (ASCII whitespace). -/
def isPySpace (c : Char) : Bool :=
  c = ' ' || c = '\t' || c = '\n' || c = '\r' || c = '\x0b' || c = '\x0c'

/-- Strip leading and trailing whitespace characters from a character list. -/
def stripList (l : List Char) : List Char :=
  ((l.dropWhile isPySpace).reverse.dropWhile isPySpace).reverse

/-- Model of Python `str.strip()`. -/
def pyStrip (s : String) : String :=
  ⟨stripList s.data⟩

/-- Lexicographic comparison of character lists by code point, the order
Python uses to sort strings. -/
def charListLe : List Char → List Char → Bool
  | [], _ => true
  | _ :: _, [] => false
  | x :: xs, y :: ys => if x = y then charListLe xs ys else decide (x < y)

/-- Model of Python string comparison `s <= t` (code-point lexicographic). -/
def pyStrLe (s t : String) : Bool :=
  charListLe s.data t.data

/-- Python truthiness for the modelled value kinds. -/
def pyTruthy : PyVal → Bool
  | .pstr s => s != ""
  | .pint n => n != 0
  | .plist l => !l.isEmpty
  | .pdict d => !d.isEmpty

/-- Lookup in an insertion-ordered association list (Python `d[k]` read). -/
def assocGet {α : Type} (d : List (String × α)) (k : String) : Option α :=
  match d with
  | [] => none
  | p :: rest => if p.1 = k then some p.2 else assocGet rest k

/-- Python dict assignment `d[k] = v`: overwrite in place if the key is
present, otherwise append the new binding at the end. -/
def assocSet {α : Type} (d : List (String × α)) (k : String) (v : α) : List (String × α) :=
  match d with
  | [] => [(k, v)]
  | p :: rest => if p.1 = k then (k, v) :: rest else p :: assocSet rest k v

/-- Whether a list of characters occurs contiguously inside another. -/
def substrList (pat l : List Char) : Bool :=
  l.tails.any (fun t => pat.isPrefixOf t)

/-- Python membership test `k in v` for a string key `k`: key lookup on a
dict, substring test on a string, element equality on a list, and a
`TypeError` on an integer. -/
def pyContains (v : PyVal) (k : String) : Except PyErr Bool :=
  match v with
  | .pdict d => .ok (assocGet d k).isSome
  | .pstr s => .ok (substrList k.data s.data)
  | .plist l => .ok (l.any fun x => match x with | .pstr t => t == k | _ => false)
  | .pint _ => .error .typeError

/-- Python subscript `v[k]` with a string key: dict lookup (`KeyError` when
absent), `TypeError` on every non-dict value. -/
def pyGetItem (v : PyVal) (k : String) : Except PyErr PyVal :=
  match v with
  | .pdict d =>
    match assocGet d k with
    | some x => .ok x
    | none => .error .keyError
  | _ => .error .typeError

/-- Python `v.get(k, default)`: only dicts have `.get`; anything else raises
`AttributeError`. -/
def pyDictGet (v : PyVal) (k : String) (dflt : PyVal) : Except PyErr PyVal :=
  match v with
  | .pdict d => .ok ((assocGet d k).getD dflt)
  | _ => .error .attributeError

/-- The `dominant_attack_ip` block of the extraction loop (source lines
120-125): the optional (ip, reputation) pair of one incident. The condition
`if ip and ip.strip()` first tests truthiness and then calls `.strip()`,
which raises `AttributeError` on a truthy non-string. -/
def attackIpContrib (incident : PyVal) : Except PyErr (Option (String × PyVal)) := do
  let hasAttackIp ← pyContains incident "dominant_attack_ip"
  if hasAttackIp then do
    let dai ← pyGetItem incident "dominant_attack_ip"
    let hasIp ← pyContains dai "ip"
    if hasIp then do
      let ipv ← pyGetItem dai "ip"
      match ipv with
      | .pstr s =>
        if s != "" && pyStrip s != "" then do
          let reputation ← pyDictGet dai "reputation" (.plist [])
          pure (some (s, reputation))
        else
          pure none
      | v =>
        if pyTruthy v then .error .attributeError else pure none
    else
      pure none
  else
    pure none

/-- The `dominant_attacked_host` block of the extraction loop (source lines
127-131): the optional domain of one incident. -/
def attackedHostContrib (incident : PyVal) : Except PyErr (Option String) := do
  let hasHost ← pyContains incident "dominant_attacked_host"
  if hasHost then do
    let dah ← pyGetItem incident "dominant_attacked_host"
    let hasVal ← pyContains dah "value"
    if hasVal then do
      let dv ← pyGetItem dah "value"
      match dv with
      | .pstr s =>
        if s != "" && pyStrip s != "" then pure (some s) else pure none
      | v =>
        if pyTruthy v then .error .attributeError else pure none
    else
      pure none
  else
    pure none

/-- Per-incident work of `extract_data_from_incidents` (source lines
119-131): the attack-ip block followed by the attacked-host block. -/
def incidentContrib (incident : PyVal) : Except PyErr (Option (String × PyVal) × Option String) := do
  let ipPart ← attackIpContrib incident
  let domPart ← attackedHostContrib incident
  pure (ipPart, domPart)

/-- Fold one incident contribution into the accumulated state
(`ip_data[ip] = reputation` and `domains.add(domain)`). -/
def applyContrib (s : List (String × PyVal) × Finset String)
    (c : Option (String × PyVal) × Option String) :
    List (String × PyVal) × Finset String :=
  (match c.1 with
   | some kv => assocSet s.1 kv.1 kv.2
   | none => s.1,
   match c.2 with
   | some d => insert d s.2
   | none => s.2)

/-- The `for incident in incidents` loop of `extract_data_from_incidents`. -/
def extractLoop (s : List (String × PyVal) × Finset String) :
    List PyVal → Except PyErr (List (String × PyVal) × Finset String)
  | [] => .ok s
  | inc :: rest => do
    let c ← incidentContrib inc
    extractLoop (applyContrib s c) rest

/-- Model of `extract_data_from_incidents` (source lines 98-136): a dict is
wrapped into a one-element list; iterating a string yields its characters as
one-character strings; iterating an integer raises `TypeError`. -/
def extract_data_from_incidents (incidents : PyVal) :
    Except PyErr (List (String × PyVal) × Finset String) :=
  match incidents with
  | .pdict d => extractLoop ([], ∅) [.pdict d]
  | .plist l => extractLoop ([], ∅) l
  | .pstr s => extractLoop ([], ∅) (s.data.map fun c => .pstr (String.singleton c))
  | .pint _ => .error .typeError

/-- The (ip, reputation) contribution of one incident for a fixed key, when
the incident extracts without an exception. -/
def contribOfIp (inc : PyVal) (k : String) : Option PyVal :=
  match incidentContrib inc with
  | .ok (some kv, _) => if kv.1 = k then some kv.2 else none
  | _ => none

/-- A present nested field is well formed when it is a dict whose sub-field
(`ip` or `value`), if present, is a string. -/
def fieldOk (d : List (String × PyVal)) (field sub : String) : Bool :=
  match assocGet d field with
  | none => true
  | some (.pdict inner) =>
    match assocGet inner sub with
    | none => true
    | some (.pstr _) => true
    | some _ => false
  | some _ => false

/-- Sufficient well-formedness of an incident record for exception-free
extraction. -/
def incidentWF (v : PyVal) : Bool :=
  match v with
  | .pdict d => fieldOk d "dominant_attack_ip" "ip" && fieldOk d "dominant_attacked_host" "value"
  | _ => false

/-- First option that is `some`, preferring the left argument. -/
def firstSome {α : Type} (x y : Option α) : Option α :=
  match x with
  | some v => some v
  | none => y

/-- Python dict union `{**a, **b}` / `a.update(b)`: repeated dict assignment
of `b`'s entries into `a`; entries of `b` overwrite same-key entries of `a`. -/
def pyDictUpdate (a b : List (String × PyVal)) : List (String × PyVal) :=
  b.foldl (fun acc p => assocSet acc p.1 p.2) a

/-- Reading a persisted newline-delimited list file back in:
`set(line.strip() for line in f.readlines() if line.strip())`, represented
as the duplicate-free list of the set's elements. -/
def readListFile (lines : List String) : List String :=
  ((lines.map pyStrip).filter (fun s => decide (s ≠ ""))).dedup

/-- The shared read-merge-rewrite step of `save_domains_to_file` and the flat
file part of `save_ip_data_to_file` (the source duplicates this logic): read
the existing entries (empty when the file is absent), drop blank new entries,
union with the new set, and write the union sorted, skipping blank entries.
Python sets are modelled as duplicate-free lists; `sorted` of the union set
is the unique sorted duplicate-free enumeration, computed here by insertion
sort of the deduplicated concatenation. The result is the list of written
lines. -/
def mergeFlat (existingFile : Option (List String)) (newEntries : List String) : List String :=
  let existing : List String :=
    match existingFile with
    | some lines => readListFile lines
    | none => []
  let filtered := newEntries.filter (fun s => decide (pyStrip s ≠ ""))
  let all := (existing ++ filtered).dedup
  (List.insertionSort (fun a b => pyStrLe a b = true) all).filter
    (fun s => decide (pyStrip s ≠ ""))

/-- Model of `save_domains_to_file` (source lines 138-194) as a function from
the prior domain-file content and the new domain set (a duplicate-free list)
to the written content. -/
def save_domains_to_file (existingFile : Option (List String)) (domains : List String) :
    List String :=
  mergeFlat existingFile domains

/-- Deterministic rendering of `list(set(a).union(set(b)))`: the distinct
elements of `a` followed by the distinct elements of `b` not already in `a`.
Python's set iteration order is unspecified; this fixes one order. -/
def pyListUnion (a b : List String) : List String :=
  a.dedup ++ b.dedup.filter (fun x => decide (x ∉ a))

/-- One step of the detailed-JSON merge loop of `save_ip_data_to_file`
(source lines 269-277): union the reputation lists when the IP is already
present, otherwise insert the new entry. No blank filtering happens here. -/
def detailedStep (acc : List (String × List String)) (p : String × List String) :
    List (String × List String) :=
  match assocGet acc p.1 with
  | some v => assocSet acc p.1 (pyListUnion v p.2)
  | none => assocSet acc p.1 p.2

/-- Model of `save_ip_data_to_file` (source lines 196-292): from the prior
flat-file content, the prior detailed-JSON content (`none` for an absent or
unparsable file, which the source treats as empty) and the new `ip_data`,
produce the written flat lines and the written detailed JSON object. -/
def save_ip_data_to_file (flatFile : Option (List String))
    (detailedFile : Option (List (String × List String)))
    (ip_data : List (String × List String)) :
    List String × List (String × List String) :=
  let flatOut := mergeFlat flatFile (ip_data.map Prod.fst)
  let existing_detailed := detailedFile.getD []
  let detOut := ip_data.foldl detailedStep existing_detailed
  (flatOut, detOut)

/-- A filesystem: map from path to file content. -/
def FileSys : Type := String → Option String

/-- Filename resolution used throughout the source: prepend `data/` unless
the given name already starts with `data`. -/
def resolveDataFilename (filename : String) : String :=
  if filename.startsWith "data" then filename else "data/" ++ filename

/-- Model of `save_last_query_timestamp` (source lines 294-321): write the
decimal representation of the timestamp; with no filename (or an empty one) a
fresh timestamp-named file `data/<now>_last_query_timestamp.txt` is used. -/
def save_last_query_timestamp (now : String) (ts : Int) (filename : Option String)
    (fs : FileSys) : FileSys :=
  let fname :=
    match filename with
    | none => "data/" ++ now ++ "_last_query_timestamp.txt"
    | some f => if f = "" then "data/" ++ now ++ "_last_query_timestamp.txt"
                else resolveDataFilename f
  fun n => if n = fname then some (toString ts) else fs n

/-- Numeric value of a digit string. -/
def digitsToNat (l : List Char) : Nat :=
  l.foldl (fun a c => 10 * a + (c.toNat - 48)) 0

/-- Model of Python `int(s)` on an already-stripped string: an optional sign
followed by at least one decimal digit; anything else raises `ValueError`. -/
def pyIntOfString (s : String) : Except PyErr Int :=
  match s.data with
  | [] => .error .valueError
  | c :: rest =>
    if c = '-' then
      if rest ≠ [] ∧ rest.all Char.isDigit then .ok (-(digitsToNat rest : Int))
      else .error .valueError
    else if c = '+' then
      if rest ≠ [] ∧ rest.all Char.isDigit then .ok (digitsToNat rest)
      else .error .valueError
    else
      if (c :: rest).all Char.isDigit then .ok (digitsToNat (c :: rest))
      else .error .valueError

/-- Model of `get_last_query_timestamp` (source lines 323-347): with no
filename (or an empty one) the fixed path `data/last_query_timestamp.txt` is
read; an absent file yields `none`; otherwise `int(content.strip())`. -/
def get_last_query_timestamp (fs : FileSys) (filename : Option String) :
    Except PyErr (Option Int) :=
  let fname :=
    match filename with
    | none => "data/last_query_timestamp.txt"
    | some f => if f = "" then "data/last_query_timestamp.txt" else f
  match fs fname with
  | none => .ok none
  | some content => (pyIntOfString (pyStrip content)).map some

/-- An HTTP response: status code and decoded JSON body. -/
structure HttpResponse where
  status : Nat
  body : PyVal

/-- The request headers built by the source: the two credential headers (the
environment variables may be unset) and the fixed accept header. -/
structure PyHeaders where
  xApiId : Option String
  xApiKey : Option String
  accept : String

/-- Header construction shared by both fetch functions. -/
def buildHeaders (apiId apiKey : Option String) : PyHeaders :=
  ⟨apiId, apiKey, "application/json"⟩

/-- Request parameters of one page request (source lines 378-386): `caid`,
`page`, `page_size`, and — only when `since_timestamp` is truthy, i.e.
present and nonzero — the `from` parameter. -/
def buildPageParams (caid : PyVal) (page pageSize : Nat) (since : Option Int) :
    List (String × PyVal) :=
  let base := [("caid", caid), ("page", PyVal.pint page), ("page_size", PyVal.pint pageSize)]
  match since with
  | some n => if n ≠ 0 then base ++ [("from", PyVal.pint n)] else base
  | none => base

/-- Normalisation of a page body (source lines 405-411): a dict becomes a
one-element list, a falsy value becomes the empty list, a list stays itself,
a nonempty string is iterated character-wise by `extend`, and a truthy
integer raises `TypeError` at `len`. -/
def pageIncidents : PyVal → Except PyErr (List PyVal)
  | .pdict d => .ok [.pdict d]
  | .plist l => .ok l
  | .pstr s => .ok (s.data.map fun c => .pstr (String.singleton c))
  | .pint n => if n = 0 then .ok [] else .error .typeError

/-- The `while more_incidents` loop of `fetch_all_incidents_with_pagination`
with explicit fuel. A 200 response extends the accumulator and stops when
the page is shorter than `page_size`; any other status stops immediately
with the incidents accumulated so far. No credential check is performed. -/
def fetchLoop (apiId apiKey : Option String)
    (http : List (String × PyVal) → PyHeaders → HttpResponse)
    (caid : PyVal) (since : Option Int) (pageSize : Nat) :
    Nat → Nat → List PyVal → Option (Except PyErr (List PyVal))
  | 0, _, _ => none
  | fuel + 1, page, acc =>
    let r := http (buildPageParams caid page pageSize since) (buildHeaders apiId apiKey)
    if r.status = 200 then
      match pageIncidents r.body with
      | .error e => some (.error e)
      | .ok incidents =>
        if incidents.length < pageSize then some (.ok (acc ++ incidents))
        else fetchLoop apiId apiKey http caid since pageSize fuel (page + 1) (acc ++ incidents)
    else some (.ok acc)

/-- Model of `fetch_all_incidents_with_pagination` (source lines 349-438):
start at page 1 with an empty accumulator. -/
def fetch_all_incidents_with_pagination (apiId apiKey : Option String)
    (http : List (String × PyVal) → PyHeaders → HttpResponse)
    (caid : PyVal) (since : Option Int) (pageSize fuel : Nat) :
    Option (Except PyErr (List PyVal)) :=
  fetchLoop apiId apiKey http caid since pageSize fuel 1 []

/-- Truthiness of an optional string (`not api_id` is true for an unset
variable and for the empty string). -/
def truthyOptStr : Option String → Bool
  | none => false
  | some s => s != ""

/-- Model of `get_imperva_incidents` (source lines 40-96): raises
`ValueError` when either credential is unset or empty; otherwise issues one
request (`caid` plus the truthy-guarded `from`) and returns the body on a
200 status and `None` otherwise. -/
def get_imperva_incidents (apiId apiKey : Option String)
    (http : List (String × PyVal) → PyHeaders → HttpResponse)
    (caid : PyVal) (since : Option Int) : Except PyErr (Option PyVal) :=
  if truthyOptStr apiId = false ∨ truthyOptStr apiKey = false then .error .valueError
  else
    let params :=
      match since with
      | some n => if n ≠ 0 then [("caid", caid), ("from", PyVal.pint n)] else [("caid", caid)]
      | none => [("caid", caid)]
    let r := http params (buildHeaders apiId apiKey)
    if r.status = 200 then .ok (some r.body) else .ok none

/-- Ordered concatenation of the bodies of pages `start .. start + n - 1`. -/
def pagesConcat (bodies : Nat → List PyVal) (start n : Nat) : List PyVal :=
  ((List.range' start n).map bodies).flatten

/-! ### Lemmas about stripping -/

/-- Dropping a satisfied-run twice is the same as dropping it once. -/
theorem dropWhile_dropWhile {α : Type} (p : α → Bool) (l : List α) :
    (l.dropWhile p).dropWhile p = l.dropWhile p := by
  induction l with
  | nil => rfl
  | cons a t ih =>
    cases h : p a with
    | true => simp [List.dropWhile_cons, h, ih]
    | false => simp [List.dropWhile_cons, h]

/-- The head surviving a `dropWhile` does not satisfy the predicate. -/
theorem dropWhile_head_false {α : Type} (p : α → Bool) (l : List α) (a : α) (t : List α)
    (h : l.dropWhile p = a :: t) : p a = false := by
  induction l with
  | nil => simp at h
  | cons b r ih =>
    cases hb : p b with
    | true => rw [List.dropWhile_cons, if_pos (by simp [hb])] at h; exact ih h
    | false =>
      rw [List.dropWhile_cons, if_neg (by simp [hb])] at h
      cases h
      exact hb

/-- A list whose head does not satisfy the predicate survives `dropWhile`. -/
theorem dropWhile_eq_self_of_head_false {α : Type} (p : α → Bool) (l : List α)
    (h : ∀ a t, l = a :: t → p a = false) : l.dropWhile p = l := by
  cases l with
  | nil => rfl
  | cons a t => simp [List.dropWhile_cons, h a t rfl]

/-- Stripping both ends is idempotent. -/
theorem stripList_idem (l : List Char) : stripList (stripList l) = stripList l := by
  have key : ∀ a t, stripList l = a :: t → isPySpace a = false := by
    intro a t h
    have hu : ((l.dropWhile isPySpace).reverse).takeWhile isPySpace
        ++ ((l.dropWhile isPySpace).reverse).dropWhile isPySpace
        = (l.dropWhile isPySpace).reverse :=
      List.takeWhile_append_dropWhile _ _
    have hm : l.dropWhile isPySpace
        = stripList l ++ ((l.dropWhile isPySpace).reverse.takeWhile isPySpace).reverse := by
      have h2 := congrArg List.reverse hu
      rw [List.reverse_append, List.reverse_reverse] at h2
      simpa [stripList] using h2.symm
    rw [h] at hm
    exact dropWhile_head_false isPySpace l a
      (t ++ ((l.dropWhile isPySpace).reverse.takeWhile isPySpace).reverse)
      (by simpa using hm)
  have h1 : (stripList l).dropWhile isPySpace = stripList l :=
    dropWhile_eq_self_of_head_false _ _ key
  show (((stripList l).dropWhile isPySpace).reverse.dropWhile isPySpace).reverse = stripList l
  rw [h1]
  have h2 : (stripList l).reverse = (l.dropWhile isPySpace).reverse.dropWhile isPySpace := by
    simp [stripList]
  rw [h2, dropWhile_dropWhile, ← h2, List.reverse_reverse]

/-- Python `strip` is idempotent. -/
theorem pyStrip_idem (s : String) : pyStrip (pyStrip s) = pyStrip s := by
  show (⟨stripList (stripList s.data)⟩ : String) = ⟨stripList s.data⟩
  rw [stripList_idem]

/-! ### Lemmas about association lists -/

/-- Reading back the key just written. -/
theorem assocGet_assocSet_self {α : Type} (d : List (String × α)) (k : String) (v : α) :
    assocGet (assocSet d k v) k = some v := by
  induction d with
  | nil => simp [assocSet, assocGet]
  | cons p rest ih =>
    by_cases h : p.1 = k
    · simp [assocSet, h, assocGet]
    · simp [assocSet, h, assocGet, ih]

/-- Writing one key does not disturb another. -/
theorem assocGet_assocSet_ne {α : Type} (d : List (String × α)) (k j : String) (v : α)
    (h : j ≠ k) : assocGet (assocSet d k v) j = assocGet d j := by
  induction d with
  | nil => simp [assocSet, assocGet, Ne.symm h]
  | cons p rest ih =>
    by_cases hp : p.1 = k
    · simp [assocSet, assocGet, hp, Ne.symm h]
    · simp only [assocSet, if_neg hp, assocGet]
      rw [ih]

/-- A missing key reads as `none`. -/
theorem assocGet_eq_none {α : Type} (d : List (String × α)) (k : String) :
    assocGet d k = none ↔ k ∉ d.map Prod.fst := by
  induction d with
  | nil => simp [assocGet]
  | cons p rest ih =>
    by_cases hp : p.1 = k
    · simp [assocGet, hp]
    · simp [assocGet, hp, ih, Ne.symm hp]

/-- Keys after an insertion: an old key or the inserted one. -/
theorem mem_keys_assocSet {α : Type} (d : List (String × α)) (k : String) (v : α) (x : String)
    (h : x ∈ (assocSet d k v).map Prod.fst) : x ∈ d.map Prod.fst ∨ x = k := by
  induction d with
  | nil =>
    simp [assocSet] at h
    simp [h]
  | cons p rest ih =>
    by_cases hp : p.1 = k
    · rw [show assocSet (p :: rest) k v = (k, v) :: rest from by simp [assocSet, hp],
        List.map_cons, List.mem_cons] at h
      rcases h with h | h
      · exact Or.inr h
      · exact Or.inl (by simp [h])
    · rw [show assocSet (p :: rest) k v = p :: assocSet rest k v from by simp [assocSet, hp],
        List.map_cons, List.mem_cons] at h
      rcases h with h | h
      · exact Or.inl (by simp [h])
      · rcases ih h with h2 | h2
        · exact Or.inl (by simp [h2])
        · exact Or.inr h2

/-- Insertion preserves key distinctness. -/
theorem nodupKeys_assocSet {α : Type} (d : List (String × α)) (k : String) (v : α)
    (h : (d.map Prod.fst).Nodup) : ((assocSet d k v).map Prod.fst).Nodup := by
  induction d with
  | nil => simp [assocSet]
  | cons p rest ih =>
    rw [List.map_cons, List.nodup_cons] at h
    by_cases hp : p.1 = k
    · rw [show assocSet (p :: rest) k v = (k, v) :: rest from by simp [assocSet, hp]]
      rw [List.map_cons, List.nodup_cons]
      exact ⟨hp ▸ h.1, h.2⟩
    · rw [show assocSet (p :: rest) k v = p :: assocSet rest k v from by simp [assocSet, hp]]
      rw [List.map_cons, List.nodup_cons]
      refine ⟨fun hmem => ?_, ih h.2⟩
      rcases mem_keys_assocSet rest k v p.1 hmem with h2 | h2
      · exact h.1 h2
      · exact hp h2

/-- Entries after an insertion: the inserted pair or an old entry. -/
theorem mem_assocSet {α : Type} (d : List (String × α)) (k : String) (v : α) (q : String × α)
    (h : q ∈ assocSet d k v) : q = (k, v) ∨ q ∈ d := by
  induction d with
  | nil =>
    simp [assocSet] at h
    simp [h]
  | cons p rest ih =>
    by_cases hp : p.1 = k
    · simp [assocSet, hp] at h
      rcases h with h | h
      · exact Or.inl (by simp [h])
      · exact Or.inr (by simp [h])
    · simp [assocSet, hp] at h
      rcases h with h | h
      · exact Or.inr (by simp [h])
      · rcases ih h with h2 | h2
        · exact Or.inl h2
        · exact Or.inr (by simp [h2])

/-- With distinct keys, membership determines the lookup result. -/
theorem assocGet_of_mem_nodup {α : Type} (d : List (String × α)) (q : String × α)
    (h : (d.map Prod.fst).Nodup) (hq : q ∈ d) : assocGet d q.1 = some q.2 := by
  induction d with
  | nil => simp at hq
  | cons p rest ih =>
    rw [List.map_cons, List.nodup_cons] at h
    rcases List.mem_cons.mp hq with h1 | h1
    · rw [h1]
      simp [assocGet]
    · have hne : p.1 ≠ q.1 := by
        intro he
        exact h.1 (he ▸ List.mem_map_of_mem Prod.fst h1)
      simp [assocGet, hne, ih h.2 h1]

/-! ### Lemmas about `firstSome` -/

/-- Left identity. -/
theorem firstSome_none_left {α : Type} (y : Option α) : firstSome none y = y := rfl

/-- Right identity. -/
theorem firstSome_none_right {α : Type} (x : Option α) : firstSome x none = x := by
  cases x <;> rfl

/-! ### Lemmas about the extraction loop -/

/-- The extraction loop splits over concatenation. -/
theorem extractLoop_append (A B : List PyVal) (s : List (String × PyVal) × Finset String) :
    extractLoop s (A ++ B) = (extractLoop s A).bind (fun t => extractLoop t B) := by
  induction A generalizing s with
  | nil => rfl
  | cons inc rest ih =>
    show (incidentContrib inc).bind (fun c => extractLoop (applyContrib s c) (rest ++ B))
      = ((incidentContrib inc).bind fun c => extractLoop (applyContrib s c) rest).bind
          fun t => extractLoop t B
    cases h : incidentContrib inc with
    | error e => rfl
    | ok c => exact ih (applyContrib s c)

/-- Whether the loop raises depends only on the incidents, not on the
starting state. -/
theorem extractLoop_ok_of_ok (L : List PyVal) (s t s' : List (String × PyVal) × Finset String)
    (h : extractLoop s L = .ok t) : ∃ t', extractLoop s' L = .ok t' := by
  induction L generalizing s t s' with
  | nil => exact ⟨s', rfl⟩
  | cons inc rest ih =>
    cases hc : incidentContrib inc with
    | error e =>
      rw [show extractLoop s (inc :: rest)
          = (incidentContrib inc).bind (fun c => extractLoop (applyContrib s c) rest) from rfl,
        hc] at h
      exact absurd h (by simp [Except.bind])
    | ok c =>
      rw [show extractLoop s (inc :: rest)
          = (incidentContrib inc).bind (fun c => extractLoop (applyContrib s c) rest) from rfl,
        hc] at h
      obtain ⟨t', ht'⟩ := ih (applyContrib s c) t (applyContrib s' c) h
      refine ⟨t', ?_⟩
      rw [show extractLoop s' (inc :: rest)
          = (incidentContrib inc).bind (fun c => extractLoop (applyContrib s' c) rest) from rfl,
        hc]
      exact ht'

/-- Running the loop from an arbitrary state is the run from the empty state
overlaid on the start: keys found by the run win, the rest fall back to the
start, and domains are unioned. -/
theorem extractLoop_shift (B : List PyVal) (s t u : List (String × PyVal) × Finset String)
    (hB : extractLoop s B = .ok t) (h0 : extractLoop ([], ∅) B = .ok u) :
    (∀ k, assocGet t.1 k = firstSome (assocGet u.1 k) (assocGet s.1 k)) ∧ t.2 = s.2 ∪ u.2 := by
  induction B generalizing s t u with
  | nil =>
    simp only [extractLoop] at hB h0
    cases hB
    cases h0
    refine ⟨fun k => by simp [assocGet, firstSome], by simp⟩
  | cons inc rest ih =>
    cases hc : incidentContrib inc with
    | error e =>
      rw [show extractLoop s (inc :: rest)
          = (incidentContrib inc).bind (fun c => extractLoop (applyContrib s c) rest) from rfl,
        hc] at hB
      exact absurd hB (by simp [Except.bind])
    | ok c =>
      rw [show extractLoop s (inc :: rest)
          = (incidentContrib inc).bind (fun c => extractLoop (applyContrib s c) rest) from rfl,
        hc] at hB
      rw [show extractLoop ([], ∅) (inc :: rest)
          = (incidentContrib inc).bind (fun c => extractLoop (applyContrib ([], ∅) c) rest) from rfl,
        hc] at h0
      obtain ⟨u', hu'⟩ := extractLoop_ok_of_ok rest _ _ ([], ∅) hB
      have H1 := ih _ _ _ hB hu'
      have H2 := ih _ _ _ h0 hu'
      constructor
      · intro k
        have e1 := H1.1 k
        have e2 := H2.1 k
        cases hc1 : c.1 with
        | none =>
          rw [show (applyContrib s c).1 = s.1 from by simp [applyContrib, hc1]] at e1
          rw [show (applyContrib ([], ∅) c).1 = [] from by simp [applyContrib, hc1]] at e2
          rw [e1, e2]
          simp [assocGet, firstSome_none_right]
        | some kv =>
          rw [show (applyContrib s c).1 = assocSet s.1 kv.1 kv.2 from by
            simp [applyContrib, hc1]] at e1
          rw [show (applyContrib ([], ∅) c).1 = assocSet [] kv.1 kv.2 from by
            simp [applyContrib, hc1]] at e2
          by_cases hk : k = kv.1
          · rw [hk] at e1 e2 ⊢
            rw [e1, e2, assocGet_assocSet_self, assocGet_assocSet_self]
            cases assocGet u'.1 kv.1 <;> simp [firstSome]
          · rw [e1, e2, assocGet_assocSet_ne _ _ _ _ hk, assocGet_assocSet_ne _ _ _ _ hk]
            cases assocGet u'.1 k <;> simp [firstSome, assocGet]
      · have d1 := H1.2
        have d2 := H2.2
        cases hc2 : c.2 with
        | none =>
          rw [show (applyContrib s c).2 = s.2 from by simp [applyContrib, hc2]] at d1
          rw [show (applyContrib ([], ∅) c).2 = (∅ : Finset String) from by
            simp [applyContrib, hc2]] at d2
          rw [d1, d2]
          simp
        | some dv =>
          rw [show (applyContrib s c).2 = insert dv s.2 from by simp [applyContrib, hc2]] at d1
          rw [show (applyContrib ([], ∅) c).2 = insert dv (∅ : Finset String) from by
            simp [applyContrib, hc2]] at d2
          rw [d1, d2]
          ext x
          simp [Finset.mem_union, Finset.mem_insert]
          tauto

/-- The loop preserves distinctness of the accumulated IP keys. -/
theorem extractLoop_nodupKeys (L : List PyVal) (s t : List (String × PyVal) × Finset String)
    (h : extractLoop s L = .ok t) (hs : (s.1.map Prod.fst).Nodup) :
    (t.1.map Prod.fst).Nodup := by
  induction L generalizing s with
  | nil =>
    simp only [extractLoop] at h
    cases h
    exact hs
  | cons inc rest ih =>
    cases hc : incidentContrib inc with
    | error e =>
      rw [show extractLoop s (inc :: rest)
          = (incidentContrib inc).bind (fun c => extractLoop (applyContrib s c) rest) from rfl,
        hc] at h
      exact absurd h (by simp [Except.bind])
    | ok c =>
      rw [show extractLoop s (inc :: rest)
          = (incidentContrib inc).bind (fun c => extractLoop (applyContrib s c) rest) from rfl,
        hc] at h
      refine ih (applyContrib s c) h ?_
      cases hc1 : c.1 with
      | none => simpa [applyContrib, hc1] using hs
      | some kv =>
        rw [show (applyContrib s c).1 = assocSet s.1 kv.1 kv.2 from by simp [applyContrib, hc1]]
        exact nodupKeys_assocSet _ _ _ hs

/-- A suffix of incidents contributing nothing for a key leaves that key's
value unchanged. -/
theorem extractLoop_get_of_no_contrib (B : List PyVal)
    (s t : List (String × PyVal) × Finset String) (k : String)
    (h : extractLoop s B = .ok t) (hB : ∀ b ∈ B, contribOfIp b k = none) :
    assocGet t.1 k = assocGet s.1 k := by
  induction B generalizing s with
  | nil =>
    simp only [extractLoop] at h
    cases h
    rfl
  | cons inc rest ih =>
    cases hc : incidentContrib inc with
    | error e =>
      rw [show extractLoop s (inc :: rest)
          = (incidentContrib inc).bind (fun c => extractLoop (applyContrib s c) rest) from rfl,
        hc] at h
      exact absurd h (by simp [Except.bind])
    | ok c =>
      rw [show extractLoop s (inc :: rest)
          = (incidentContrib inc).bind (fun c => extractLoop (applyContrib s c) rest) from rfl,
        hc] at h
      have hinc := hB inc (List.mem_cons_self inc rest)
      have hrest : ∀ b ∈ rest, contribOfIp b k = none :=
        fun b hb => hB b (List.mem_cons_of_mem inc hb)
      rw [ih _ h hrest]
      obtain ⟨c1, c2⟩ := c
      cases hc1 : c1 with
      | none => simp [applyContrib, hc1]
      | some kv =>
        have hne : kv.1 ≠ k := by
          intro he
          rw [contribOfIp, hc, hc1] at hinc
          simp [he] at hinc
        subst hc1
        simp [applyContrib, assocGet_assocSet_ne _ _ _ _ (Ne.symm hne)]

/-- Reduction of the `Except` monad bind on a success value. -/
theorem exceptBind_ok {alpha beta : Type} (a : alpha) (f : alpha → Except PyErr beta) :
    (Except.ok a : Except PyErr alpha) >>= f = f a := rfl

/-- Reduction of the `Except` monad bind on an error value. -/
theorem exceptBind_err {alpha beta : Type} (e : PyErr) (f : alpha → Except PyErr beta) :
    (Except.error e : Except PyErr alpha) >>= f = Except.error e := rfl

/-- Reduction of `pure` in the `Except` monad. -/
theorem exceptPure {alpha : Type} (a : alpha) :
    (pure a : Except PyErr alpha) = Except.ok a := rfl

/-- A well-formed `dominant_attack_ip` field never raises. -/
theorem attackIpContrib_ok_of_fieldOk (d : List (String × PyVal))
    (h : fieldOk d "dominant_attack_ip" "ip" = true) :
    ∃ r, attackIpContrib (.pdict d) = .ok r := by
  cases hA : assocGet d "dominant_attack_ip" with
  | none => exact ⟨none, by simp [attackIpContrib, pyContains, hA, exceptBind_ok, exceptPure]⟩
  | some v =>
    rw [fieldOk, hA] at h
    cases v with
    | pstr s => simp at h
    | pint n => simp at h
    | plist l => simp at h
    | pdict inner =>
      have h2 : (match assocGet inner "ip" with
          | none => true
          | some (PyVal.pstr _) => true
          | some _ => false) = true := h
      cases hI : assocGet inner "ip" with
      | none =>
        exact ⟨none,
          by simp [attackIpContrib, pyContains, pyGetItem, hA, hI, exceptBind_ok, exceptPure]⟩
      | some w =>
        rw [hI] at h2
        cases w with
        | pint n => simp at h2
        | plist l => simp at h2
        | pdict d2 => simp at h2
        | pstr str =>
          cases hcond : (str != "" && pyStrip str != "") with
          | true =>
            have hc := hcond
            rw [Bool.and_eq_true] at hc
            have hc1 : str ≠ "" := by simpa using hc.1
            have hc2 : pyStrip str ≠ "" := by simpa using hc.2
            exact ⟨some (str, (assocGet inner "reputation").getD (.plist [])),
              by simp [attackIpContrib, pyContains, pyGetItem, pyDictGet, hA, hI, hc1, hc2,
                exceptBind_ok, exceptPure]⟩
          | false =>
            have hc : str = "" ∨ pyStrip str = "" := by
              by_cases h1 : str = ""
              · exact Or.inl h1
              · by_cases h3 : pyStrip str = ""
                · exact Or.inr h3
                · exact absurd hcond (by simp [h1, h3])
            refine ⟨none, ?_⟩
            simp only [attackIpContrib, pyContains, pyGetItem, pyDictGet, hA, hI, hcond,
              exceptBind_ok, exceptPure]
            simp [exceptBind_ok, exceptPure]

/-- A well-formed `dominant_attacked_host` field never raises. -/
theorem attackedHostContrib_ok_of_fieldOk (d : List (String × PyVal))
    (h : fieldOk d "dominant_attacked_host" "value" = true) :
    ∃ r, attackedHostContrib (.pdict d) = .ok r := by
  cases hA : assocGet d "dominant_attacked_host" with
  | none => exact ⟨none, by simp [attackedHostContrib, pyContains, hA, exceptBind_ok, exceptPure]⟩
  | some v =>
    rw [fieldOk, hA] at h
    cases v with
    | pstr s => simp at h
    | pint n => simp at h
    | plist l => simp at h
    | pdict inner =>
      have h2 : (match assocGet inner "value" with
          | none => true
          | some (PyVal.pstr _) => true
          | some _ => false) = true := h
      cases hI : assocGet inner "value" with
      | none =>
        exact ⟨none,
          by simp [attackedHostContrib, pyContains, pyGetItem, hA, hI, exceptBind_ok, exceptPure]⟩
      | some w =>
        rw [hI] at h2
        cases w with
        | pint n => simp at h2
        | plist l => simp at h2
        | pdict d2 => simp at h2
        | pstr str =>
          cases hcond : (str != "" && pyStrip str != "") with
          | true =>
            have hc := hcond
            rw [Bool.and_eq_true] at hc
            have hc1 : str ≠ "" := by simpa using hc.1
            have hc2 : pyStrip str ≠ "" := by simpa using hc.2
            exact ⟨some str,
              by simp [attackedHostContrib, pyContains, pyGetItem, hA, hI, hc1, hc2,
                exceptBind_ok, exceptPure]⟩
          | false =>
            have hc : str = "" ∨ pyStrip str = "" := by
              by_cases h1 : str = ""
              · exact Or.inl h1
              · by_cases h3 : pyStrip str = ""
                · exact Or.inr h3
                · exact absurd hcond (by simp [h1, h3])
            refine ⟨none, ?_⟩
            simp only [attackedHostContrib, pyContains, pyGetItem, hA, hI, hcond,
              exceptBind_ok, exceptPure]
            simp [exceptBind_ok, exceptPure]

/-- A well-formed incident never raises during extraction. -/
theorem incidentContrib_ok_of_WF (inc : PyVal) (h : incidentWF inc = true) :
    ∃ c, incidentContrib inc = .ok c := by
  cases inc with
  | pstr s => simp [incidentWF] at h
  | pint n => simp [incidentWF] at h
  | plist l => simp [incidentWF] at h
  | pdict d =>
    rw [incidentWF, Bool.and_eq_true] at h
    obtain ⟨r1, hr1⟩ := attackIpContrib_ok_of_fieldOk d h.1
    obtain ⟨r2, hr2⟩ := attackedHostContrib_ok_of_fieldOk d h.2
    exact ⟨(r1, r2), by simp [incidentContrib, hr1, hr2, exceptBind_ok, exceptPure]⟩

/-- Exception-free extraction from any start for well-formed incidents. -/
theorem extractLoop_ok_of_WF (L : List PyVal) :
    (∀ inc ∈ L, incidentWF inc = true) →
    ∀ s, ∃ out, extractLoop s L = .ok out := by
  induction L with
  | nil => exact fun _ s => ⟨s, rfl⟩
  | cons inc rest ih =>
    intro hL s
    obtain ⟨c, hcontrib⟩ := incidentContrib_ok_of_WF inc (hL inc (List.mem_cons_self inc rest))
    obtain ⟨out, hout⟩ := ih (fun i hi => hL i (List.mem_cons_of_mem inc hi)) (applyContrib s c)
    refine ⟨out, ?_⟩
    rw [show extractLoop s (inc :: rest)
        = (incidentContrib inc).bind (fun c => extractLoop (applyContrib s c) rest) from rfl,
      hcontrib]
    exact hout

/-- Lookup in a Python dict union: the right dict wins, the left is the
fallback. -/
theorem assocGet_pyDictUpdate (a b : List (String × PyVal))
    (hb : (b.map Prod.fst).Nodup) (k : String) :
    assocGet (pyDictUpdate a b) k = firstSome (assocGet b k) (assocGet a k) := by
  induction b generalizing a with
  | nil => simp [pyDictUpdate, assocGet, firstSome]
  | cons p rest ih =>
    rw [List.map_cons, List.nodup_cons] at hb
    rw [show pyDictUpdate a (p :: rest) = pyDictUpdate (assocSet a p.1 p.2) rest from rfl,
      ih _ hb.2]
    by_cases hk : k = p.1
    · rw [hk, assocGet_assocSet_self,
        show assocGet rest p.1 = none from (assocGet_eq_none rest p.1).mpr hb.1,
        show assocGet (p :: rest) p.1 = some p.2 from by simp [assocGet]]
      rfl
    · rw [assocGet_assocSet_ne _ _ _ _ hk,
        show assocGet (p :: rest) k = assocGet rest k from by simp [assocGet, Ne.symm hk]]

/-- Claim C3: extraction is compositional over concatenation — extracting a
concatenated incident sequence succeeds exactly with the set union of the
separately extracted domain sets and, as a map, with the Python dict union
of the separately extracted IP maps, where the second run's entries
overwrite the first run's entries at shared keys. -/
theorem extraction_compositional (A B : List PyVal)
    (ipA ipB : List (String × PyVal)) (domA domB : Finset String)
    (hA : extract_data_from_incidents (.plist A) = .ok (ipA, domA))
    (hB : extract_data_from_incidents (.plist B) = .ok (ipB, domB)) :
    ∃ ipC, extract_data_from_incidents (.plist (A ++ B)) = .ok (ipC, domA ∪ domB)
      ∧ ∀ k, assocGet ipC k = assocGet (pyDictUpdate ipA ipB) k := by
  have hA' : extractLoop ([], ∅) A = .ok (ipA, domA) := hA
  have hB' : extractLoop ([], ∅) B = .ok (ipB, domB) := hB
  obtain ⟨⟨t1, t2⟩, ht⟩ := extractLoop_ok_of_ok B ([], ∅) (ipB, domB) (ipA, domA) hB'
  have hsh := extractLoop_shift B (ipA, domA) (t1, t2) (ipB, domB) ht hB'
  have hd : t2 = domA ∪ domB := hsh.2
  subst hd
  have hnodup : (ipB.map Prod.fst).Nodup :=
    extractLoop_nodupKeys B ([], ∅) (ipB, domB) hB' (by simp)
  refine ⟨t1, ?_, ?_⟩
  · show extractLoop ([], ∅) (A ++ B) = _
    rw [extractLoop_append, hA']
    exact ht
  · intro k
    have e := hsh.1 k
    rw [show assocGet ((t1, domA ∪ domB) : List (String × PyVal) × Finset String).1 k
        = assocGet t1 k from rfl] at e
    rw [e, assocGet_pyDictUpdate ipA ipB hnodup k]

/-- Claim C3 witness: a concrete two-incident split. -/
theorem extraction_compositional_witness :
    ∃ ipC, extract_data_from_incidents (.plist
        ([.pdict [("dominant_attack_ip", .pdict [("ip", .pstr "1.1.1.1")]),
            ("dominant_attacked_host", .pdict [("value", .pstr "d1.example")])]]
        ++ [.pdict [("dominant_attack_ip", .pdict [("ip", .pstr "2.2.2.2")]),
            ("dominant_attacked_host", .pdict [("value", .pstr "d2.example")])]]))
      = .ok (ipC, ({"d1.example"} : Finset String) ∪ {"d2.example"})
      ∧ ∀ k, assocGet ipC k
          = assocGet (pyDictUpdate [("1.1.1.1", PyVal.plist [])]
              [("2.2.2.2", PyVal.plist [])]) k :=
  extraction_compositional
    [.pdict [("dominant_attack_ip", .pdict [("ip", .pstr "1.1.1.1")]),
        ("dominant_attacked_host", .pdict [("value", .pstr "d1.example")])]]
    [.pdict [("dominant_attack_ip", .pdict [("ip", .pstr "2.2.2.2")]),
        ("dominant_attacked_host", .pdict [("value", .pstr "d2.example")])]]
    [("1.1.1.1", PyVal.plist [])] [("2.2.2.2", PyVal.plist [])]
    {"d1.example"} {"d2.example"} rfl rfl

/-- Claim C9: within one extraction pass the latest incident mentioning an
IP wins — after any earlier incidents, an incident contributing (k, rep)
followed by incidents not mentioning k leaves k bound to exactly rep (the
earlier reputation is overwritten, not merged); and when the `reputation`
field is absent the recorded reputation defaults to the empty list. -/
theorem within_pass_latest_wins (A B : List PyVal) (inc : PyVal) (k : String) (rep : PyVal)
    (s : List (String × PyVal) × Finset String)
    (hrun : extract_data_from_incidents (.plist (A ++ inc :: B)) = .ok s)
    (hc : contribOfIp inc k = some rep)
    (hB : ∀ b ∈ B, contribOfIp b k = none) :
    assocGet s.1 k = some rep
  ∧ ∀ ip : String, pyStrip ip ≠ "" →
      incidentContrib (.pdict [("dominant_attack_ip", .pdict [("ip", .pstr ip)])])
        = .ok (some (ip, .plist []), none) := by
  have hdefault : ∀ ip : String, pyStrip ip ≠ "" →
      incidentContrib (.pdict [("dominant_attack_ip", .pdict [("ip", .pstr ip)])])
        = .ok (some (ip, .plist []), none) := by
    intro ip hne
    have hip : ip ≠ "" := by
      intro he
      apply hne
      rw [he]
      rfl
    have h1 : (ip != "") = true := by simpa using hip
    have h2 : (pyStrip ip != "") = true := by simpa using hne
    simp [incidentContrib, attackIpContrib, attackedHostContrib, pyContains, pyGetItem,
      pyDictGet, assocGet, substrList, h1, h2, hip, hne, exceptBind_ok, exceptPure]
  refine ⟨?_, hdefault⟩
  have hrun' : extractLoop ([], ∅) (A ++ inc :: B) = .ok s := hrun
  rw [extractLoop_append] at hrun'
  cases hA : extractLoop ([], ∅) A with
  | error e =>
    rw [hA] at hrun'
    exact absurd hrun' (by simp [Except.bind])
  | ok sA =>
    rw [hA] at hrun'
    have hrun2 : extractLoop sA (inc :: B) = .ok s := hrun'
    cases hcontrib : incidentContrib inc with
    | error e =>
      rw [show extractLoop sA (inc :: B)
          = (incidentContrib inc).bind (fun c => extractLoop (applyContrib sA c) B) from rfl,
        hcontrib] at hrun2
      exact absurd hrun2 (by simp [Except.bind])
    | ok c =>
      rw [show extractLoop sA (inc :: B)
          = (incidentContrib inc).bind (fun c => extractLoop (applyContrib sA c) B) from rfl,
        hcontrib] at hrun2
      obtain ⟨c1, c2⟩ := c
      rw [contribOfIp, hcontrib] at hc
      cases c1 with
      | none => exact absurd hc (by simp)
      | some kv =>
        have hc' : (if kv.1 = k then some kv.2 else none) = some rep := hc
        by_cases hkv : kv.1 = k
        · rw [if_pos hkv] at hc'
          have hrep : kv.2 = rep := by
            injection hc'
          rw [extractLoop_get_of_no_contrib B _ s k hrun2 hB]
          rw [show (applyContrib sA (some kv, c2)).1 = assocSet sA.1 kv.1 kv.2 from by
            simp [applyContrib]]
          rw [hkv, hrep, assocGet_assocSet_self]
        · rw [if_neg hkv] at hc'
          exact absurd hc' (by simp)

/-- Claim C9 witness: two incidents with the same IP; the later reputation
is the one recorded. -/
theorem within_pass_latest_wins_witness :
    assocGet ([("9.9.9.9", PyVal.plist [PyVal.pstr "y"])] : List (String × PyVal)) "9.9.9.9"
      = some (PyVal.plist [PyVal.pstr "y"])
    ∧ incidentContrib (.pdict [("dominant_attack_ip", .pdict [("ip", .pstr "7.7.7.7")])])
        = .ok (some ("7.7.7.7", .plist []), none) :=
  have h := within_pass_latest_wins
    [.pdict [("dominant_attack_ip",
        .pdict [("ip", .pstr "9.9.9.9"), ("reputation", .plist [.pstr "x"])])]]
    []
    (.pdict [("dominant_attack_ip",
        .pdict [("ip", .pstr "9.9.9.9"), ("reputation", .plist [.pstr "y"])])])
    "9.9.9.9" (.plist [.pstr "y"])
    ([("9.9.9.9", PyVal.plist [PyVal.pstr "y"])], ∅)
    rfl rfl (by simp)
  ⟨h.1, h.2 "7.7.7.7" (by decide)⟩

/-- Claim C10 counterexample: a present non-dict nested field does not force
an exception — with the string value "zzz" the membership test is a
substring test that fails, the incident is skipped and extraction succeeds,
refuting "the function is total only when every present nested field is a
dictionary". -/
theorem extraction_nondict_counterexample :
    extract_data_from_incidents (.plist [.pdict [("dominant_attack_ip", .pstr "zzz")]])
      = .ok ([], ∅)
    ∧ incidentWF (.pdict [("dominant_attack_ip", .pstr "zzz")]) = false :=
  ⟨rfl, rfl⟩

/-- Claim C10 (amended): a present nested field holding a non-iterable value
such as a number makes the membership test raise `TypeError`, and extraction
is total whenever every incident is a dict whose present nested fields are
dicts with string `ip`/`value` sub-fields; a present string-valued nested
field is instead handled by substring semantics and need not raise. -/
theorem extraction_totality :
    extract_data_from_incidents (.plist [.pdict [("dominant_attack_ip", .pint 5)]])
      = .error .typeError
    ∧ ∀ L : List PyVal, (∀ inc ∈ L, incidentWF inc = true) →
        ∃ out, extract_data_from_incidents (.plist L) = .ok out := by
  constructor
  · rfl
  · intro L hL
    exact extractLoop_ok_of_WF L hL ([], ∅)

/-- Claim C10 witness: a concrete well-formed incident extracts without an
exception. -/
theorem extraction_totality_witness :
    ∃ out, extract_data_from_incidents (.plist
      [.pdict [("dominant_attack_ip", .pdict [("ip", .pstr "1.2.3.4")])]]) = .ok out :=
  extraction_totality.2
    [.pdict [("dominant_attack_ip", .pdict [("ip", .pstr "1.2.3.4")])]]
    (by decide)

/-! ### Lemmas about the string order and the flat-file merge -/

/-- Totality of the lexicographic comparison. -/
theorem charListLe_total : ∀ a b : List Char, charListLe a b = true ∨ charListLe b a = true := by
  intro a
  induction a with
  | nil => intro b; exact Or.inl rfl
  | cons x xs ih =>
    intro b
    cases b with
    | nil => exact Or.inr rfl
    | cons y ys =>
      by_cases hxy : x = y
      · subst hxy
        rcases ih ys with h | h
        · exact Or.inl (by simpa [charListLe] using h)
        · exact Or.inr (by simpa [charListLe] using h)
      · rcases lt_trichotomy x y with h | h | h
        · exact Or.inl (by simp [charListLe, hxy, h])
        · exact absurd h hxy
        · exact Or.inr (by simp [charListLe, Ne.symm hxy, h])

/-- Transitivity of the lexicographic comparison. -/
theorem charListLe_trans : ∀ a b c : List Char,
    charListLe a b = true → charListLe b c = true → charListLe a c = true := by
  intro a
  induction a with
  | nil => intro b c _ _; rfl
  | cons x xs ih =>
    intro b c hab hbc
    cases b with
    | nil => simp [charListLe] at hab
    | cons y ys =>
      cases c with
      | nil => simp [charListLe] at hbc
      | cons z zs =>
        by_cases hxy : x = y <;> by_cases hyz : y = z
        · subst hxy; subst hyz
          rw [charListLe, if_pos rfl] at hab hbc ⊢
          exact ih ys zs hab hbc
        · subst hxy
          rw [charListLe, if_neg hyz] at hbc ⊢
          exact hbc
        · subst hyz
          rw [charListLe, if_neg hxy] at hab ⊢
          exact hab
        · rw [charListLe, if_neg hxy, decide_eq_true_eq] at hab
          rw [charListLe, if_neg hyz, decide_eq_true_eq] at hbc
          have hxz : x < z := lt_trans hab hbc
          rw [charListLe, if_neg (ne_of_lt hxz), decide_eq_true_eq]
          exact hxz

/-- Antisymmetry of the lexicographic comparison. -/
theorem charListLe_antisymm : ∀ a b : List Char,
    charListLe a b = true → charListLe b a = true → a = b := by
  intro a
  induction a with
  | nil =>
    intro b _ hba
    cases b with
    | nil => rfl
    | cons y ys => simp [charListLe] at hba
  | cons x xs ih =>
    intro b hab hba
    cases b with
    | nil => simp [charListLe] at hab
    | cons y ys =>
      by_cases hxy : x = y
      · subst hxy
        rw [charListLe, if_pos rfl] at hab hba
        rw [ih ys hab hba]
      · rw [charListLe, if_neg hxy, decide_eq_true_eq] at hab
        rw [charListLe, if_neg (Ne.symm hxy), decide_eq_true_eq] at hba
        exact absurd hba (lt_asymm hab)

/-- Membership in a read-back list file. -/
theorem mem_readListFile (lines : List String) (x : String) :
    x ∈ readListFile lines ↔ (∃ y ∈ lines, pyStrip y = x) ∧ x ≠ "" := by
  simp only [readListFile, List.mem_dedup, List.mem_filter, List.mem_map,
    decide_eq_true_eq]

/-- Everything read back from a list file is strip-invariant and nonblank. -/
theorem readListFile_strip (lines : List String) (x : String) (h : x ∈ readListFile lines) :
    pyStrip x = x ∧ x ≠ "" := by
  rw [mem_readListFile] at h
  obtain ⟨⟨y, _, hxy⟩, hne⟩ := h
  refine ⟨?_, hne⟩
  rw [← hxy, pyStrip_idem]

/-- A blank-free list survives the blank filter. -/
theorem filter_strip_eq_self (l : List String) (h : ∀ x ∈ l, pyStrip x ≠ "") :
    l.filter (fun s => decide (pyStrip s ≠ "")) = l := by
  apply List.filter_eq_self.mpr
  intro a ha
  simpa using h a ha

/-- Insertion sort by the Python string order is determined by membership on
duplicate-free lists. -/
theorem insertionSort_eq_of_mem_iff (l₁ l₂ : List String)
    (h₁ : l₁.Nodup) (h₂ : l₂.Nodup) (hm : ∀ x, x ∈ l₁ ↔ x ∈ l₂) :
    List.insertionSort (fun a b => pyStrLe a b = true) l₁
      = List.insertionSort (fun a b => pyStrLe a b = true) l₂ := by
  haveI : IsTotal String (fun a b => pyStrLe a b = true) :=
    ⟨fun a b => charListLe_total a.data b.data⟩
  haveI : IsTrans String (fun a b => pyStrLe a b = true) :=
    ⟨fun a b c => charListLe_trans a.data b.data c.data⟩
  haveI : IsAntisymm String (fun a b => pyStrLe a b = true) :=
    ⟨fun a b hab hba => by
      cases a with
      | mk da =>
        cases b with
        | mk db => exact congrArg String.mk (charListLe_antisymm da db hab hba)⟩
  apply List.eq_of_perm_of_sorted ?_ (List.sorted_insertionSort _ l₁)
    (List.sorted_insertionSort _ l₂)
  exact (List.perm_insertionSort _ l₁).trans
    (((List.perm_ext_iff_of_nodup h₁ h₂).mpr hm).trans (List.perm_insertionSort _ l₂).symm)

/-- Core idempotence of the flat read-merge-rewrite step over an abstract
existing set: a second merge of the same strip-invariant new entries into
the first merge's output reproduces that output. -/
theorem mergeFlatList_idem_core (E S : List String)
    (hE : ∀ x ∈ E, pyStrip x = x ∧ x ≠ "")
    (hS : ∀ x ∈ S, pyStrip x = x) :
    (List.insertionSort (fun a b => pyStrLe a b = true)
        ((readListFile ((List.insertionSort (fun a b => pyStrLe a b = true)
            ((E ++ S.filter (fun s => decide (pyStrip s ≠ ""))).dedup)).filter
              (fun s => decide (pyStrip s ≠ "")))
          ++ S.filter (fun s => decide (pyStrip s ≠ ""))).dedup)).filter
        (fun s => decide (pyStrip s ≠ ""))
      = (List.insertionSort (fun a b => pyStrLe a b = true)
          ((E ++ S.filter (fun s => decide (pyStrip s ≠ ""))).dedup)).filter
          (fun s => decide (pyStrip s ≠ "")) := by
  set F := S.filter (fun s => decide (pyStrip s ≠ "")) with hF
  set all1 := (E ++ F).dedup with hall
  have hPall : ∀ x ∈ all1, pyStrip x = x ∧ x ≠ "" ∧ pyStrip x ≠ "" := by
    intro x hx
    rw [hall, List.mem_dedup, List.mem_append] at hx
    rcases hx with hx | hx
    · obtain ⟨h1, h2⟩ := hE x hx
      refine ⟨h1, h2, ?_⟩
      rw [h1]
      exact h2
    · rw [hF, List.mem_filter, decide_eq_true_eq] at hx
      have h1 := hS x hx.1
      exact ⟨h1, fun he => hx.2 (he ▸ h1), hx.2⟩
  have hsortmem : ∀ x ∈ List.insertionSort (fun a b => pyStrLe a b = true) all1, x ∈ all1 :=
    fun x hx => (List.mem_insertionSort _).mp hx
  have hout_sort : (List.insertionSort (fun a b => pyStrLe a b = true) all1).filter
      (fun s => decide (pyStrip s ≠ ""))
      = List.insertionSort (fun a b => pyStrLe a b = true) all1 :=
    filter_strip_eq_self _ (fun x hx => (hPall x (hsortmem x hx)).2.2)
  rw [hout_sort]
  have hout_nodup : (List.insertionSort (fun a b => pyStrLe a b = true) all1).Nodup :=
    (List.perm_insertionSort _ all1).nodup_iff.mpr (List.nodup_dedup _)
  have hread : readListFile (List.insertionSort (fun a b => pyStrLe a b = true) all1)
      = List.insertionSort (fun a b => pyStrLe a b = true) all1 := by
    rw [readListFile]
    have hmap : (List.insertionSort (fun a b => pyStrLe a b = true) all1).map pyStrip
        = List.insertionSort (fun a b => pyStrLe a b = true) all1 := by
      have h2 : ∀ a ∈ List.insertionSort (fun a b => pyStrLe a b = true) all1,
          pyStrip a = id a :=
        fun a ha => (hPall a (hsortmem a ha)).1
      rw [List.map_congr_left h2, List.map_id]
    rw [hmap]
    have hfil : (List.insertionSort (fun a b => pyStrLe a b = true) all1).filter
        (fun s => decide (s ≠ ""))
        = List.insertionSort (fun a b => pyStrLe a b = true) all1 := by
      apply List.filter_eq_self.mpr
      intro a ha
      simpa using (hPall a (hsortmem a ha)).2.1
    rw [hfil, List.dedup_eq_self.mpr hout_nodup]
  rw [hread]
  have hmem : ∀ x,
      x ∈ (List.insertionSort (fun a b => pyStrLe a b = true) all1 ++ F).dedup ↔ x ∈ all1 := by
    intro x
    rw [List.mem_dedup, List.mem_append, List.mem_insertionSort]
    constructor
    · rintro (hx | hx)
      · exact hx
      · rw [hall, List.mem_dedup, List.mem_append]
        exact Or.inr hx
    · exact fun hx => Or.inl hx
  rw [insertionSort_eq_of_mem_iff _ all1 (List.nodup_dedup _) (List.nodup_dedup _) hmem]
  exact filter_strip_eq_self _ (fun x hx => (hPall x (hsortmem x hx)).2.2)

/-- Idempotence of the flat-file merge for strip-invariant new entries. -/
theorem mergeFlat_idem (f : Option (List String)) (S : List String)
    (hS : ∀ x ∈ S, pyStrip x = x) :
    mergeFlat (some (mergeFlat f S)) S = mergeFlat f S := by
  cases f with
  | none => exact mergeFlatList_idem_core [] S (by intro x hx; simp at hx) hS
  | some lines =>
    exact mergeFlatList_idem_core (readListFile lines) S (readListFile_strip lines) hS

/-! ### Lemmas about the detailed-JSON merge -/

/-- Rewriting a key with the value it already has changes nothing. -/
theorem assocSet_eq_self {α : Type} (d : List (String × α)) (k : String) (v : α)
    (h : assocGet d k = some v) : assocSet d k v = d := by
  induction d with
  | nil => simp [assocGet] at h
  | cons p rest ih =>
    by_cases hp : p.1 = k
    · rw [assocGet, if_pos hp] at h
      have hv : p.2 = v := by injection h
      rw [show assocSet (p :: rest) k v = (k, v) :: rest from by simp [assocSet, hp]]
      rw [← hp, ← hv]
    · rw [assocGet, if_neg hp] at h
      rw [show assocSet (p :: rest) k v = p :: assocSet rest k v from by simp [assocSet, hp]]
      rw [ih h]

/-- The union list is duplicate-free. -/
theorem pyListUnion_nodup (a b : List String) : (pyListUnion a b).Nodup := by
  refine List.Nodup.append (List.nodup_dedup a) (List.Nodup.filter _ (List.nodup_dedup b)) ?_
  intro x hxa hxb
  rw [List.mem_filter] at hxb
  have h2 : x ∉ a := by simpa using hxb.2
  exact h2 (List.mem_dedup.mp hxa)

/-- The union list contains every element of the right argument. -/
theorem subset_pyListUnion_right (a b : List String) (x : String) (h : x ∈ b) :
    x ∈ pyListUnion a b := by
  rw [pyListUnion, List.mem_append]
  by_cases ha : x ∈ a
  · exact Or.inl (List.mem_dedup.mpr ha)
  · refine Or.inr ?_
    rw [List.mem_filter]
    exact ⟨List.mem_dedup.mpr h, by simpa using ha⟩

/-- Union with an already-covered list is the identity. -/
theorem pyListUnion_absorb (u b : List String) (hu : u.Nodup) (hb : ∀ x ∈ b, x ∈ u) :
    pyListUnion u b = u := by
  rw [pyListUnion, List.dedup_eq_self.mpr hu]
  rw [show b.dedup.filter (fun x => decide (x ∉ u)) = [] from ?_, List.append_nil]
  rw [List.filter_eq_nil_iff]
  intro x hx
  simpa using hb x (List.mem_dedup.mp hx)

/-- Lookup after one detailed-merge step, at the stepped key. -/
theorem assocGet_detailedStep_self (acc : List (String × List String)) (p : String × List String) :
    assocGet (detailedStep acc p) p.1
      = some (match assocGet acc p.1 with
        | some v => pyListUnion v p.2
        | none => p.2) := by
  rw [detailedStep]
  cases h : assocGet acc p.1 with
  | none => rw [assocGet_assocSet_self]
  | some v => rw [assocGet_assocSet_self]

/-- Lookup after one detailed-merge step, at a different key. -/
theorem assocGet_detailedStep_ne (acc : List (String × List String)) (p : String × List String)
    (j : String) (h : j ≠ p.1) : assocGet (detailedStep acc p) j = assocGet acc j := by
  rw [detailedStep]
  cases hg : assocGet acc p.1 with
  | none => rw [assocGet_assocSet_ne _ _ _ _ h]
  | some v => rw [assocGet_assocSet_ne _ _ _ _ h]

/-- Keys outside the batch are untouched by the detailed-merge fold. -/
theorem assocGet_foldl_detailedStep_of_not_mem (l : List (String × List String))
    (acc : List (String × List String)) (k : String) (h : k ∉ l.map Prod.fst) :
    assocGet (l.foldl detailedStep acc) k = assocGet acc k := by
  induction l generalizing acc with
  | nil => rfl
  | cons p rest ih =>
    rw [List.map_cons, List.mem_cons] at h
    rw [List.foldl_cons, ih (detailedStep acc p) (fun hm => h (Or.inr hm)),
      assocGet_detailedStep_ne acc p k (fun he => h (Or.inl he))]

/-- After the first merge run, every batch entry's key holds a
duplicate-free list containing that entry's reputations. -/
theorem detailed_invariant (ip_data : List (String × List String))
    (E : List (String × List String))
    (hkeys : (ip_data.map Prod.fst).Nodup)
    (hreps : ∀ p ∈ ip_data, p.2.Nodup) :
    ∀ p ∈ ip_data, ∃ v, assocGet (ip_data.foldl detailedStep E) p.1 = some v
      ∧ v.Nodup ∧ ∀ x ∈ p.2, x ∈ v := by
  intro p hp
  obtain ⟨pre, post, hsplit⟩ := List.append_of_mem hp
  subst hsplit
  have hpost : p.1 ∉ post.map Prod.fst := by
    rw [List.map_append, List.map_cons] at hkeys
    have h2 := List.Nodup.of_append_right hkeys
    rw [List.nodup_cons] at h2
    exact h2.1
  rw [List.foldl_append, List.foldl_cons,
    assocGet_foldl_detailedStep_of_not_mem post _ p.1 hpost,
    assocGet_detailedStep_self]
  cases hg : assocGet (pre.foldl detailedStep E) p.1 with
  | none =>
    refine ⟨p.2, rfl, hreps p hp, fun x hx => hx⟩
  | some v =>
    exact ⟨pyListUnion v p.2, rfl, pyListUnion_nodup v p.2,
      fun x hx => subset_pyListUnion_right v p.2 x hx⟩

/-- A second merge of a batch already covered by the accumulator is the
identity. -/
theorem foldl_detailedStep_covered (l : List (String × List String))
    (acc : List (String × List String))
    (h : ∀ p ∈ l, ∃ v, assocGet acc p.1 = some v ∧ v.Nodup ∧ ∀ x ∈ p.2, x ∈ v) :
    l.foldl detailedStep acc = acc := by
  induction l with
  | nil => rfl
  | cons p rest ih =>
    obtain ⟨v, hv, hvn, hvc⟩ := h p (List.mem_cons_self p rest)
    have hstep : detailedStep acc p = acc := by
      rw [detailedStep, hv]
      show assocSet acc p.1 (pyListUnion v p.2) = acc
      rw [pyListUnion_absorb v p.2 hvn hvc, assocSet_eq_self acc p.1 v hv]
    rw [List.foldl_cons, hstep]
    exact ih (fun q hq => h q (List.mem_cons_of_mem p hq))

/-- Keys of the merged detailed object come from the accumulator or the
batch. -/
theorem mem_keys_foldl_detailedStep (l : List (String × List String))
    (acc : List (String × List String)) (k : String)
    (h : k ∈ (l.foldl detailedStep acc).map Prod.fst) :
    k ∈ acc.map Prod.fst ∨ k ∈ l.map Prod.fst := by
  induction l generalizing acc with
  | nil => exact Or.inl h
  | cons p rest ih =>
    rw [List.foldl_cons] at h
    rcases ih (detailedStep acc p) h with h2 | h2
    · rw [detailedStep] at h2
      have h3 : k ∈ acc.map Prod.fst ∨ k = p.1 := by
        cases hg : assocGet acc p.1 with
        | none =>
          rw [hg] at h2
          exact mem_keys_assocSet acc p.1 p.2 k h2
        | some v =>
          rw [hg] at h2
          exact mem_keys_assocSet acc p.1 (pyListUnion v p.2) k h2
      rcases h3 with h3 | h3
      · exact Or.inl h3
      · exact Or.inr (by simp [h3])
    · exact Or.inr (by simp [h2])

/-- Claim C1 counterexample: merge-and-save is not idempotent as stated — a
new domain with leading whitespace is written raw but read back stripped, so
a second identical merge grows the domain file; and a duplicated reputation
entry is written raw on first insert but deduplicated by the second merge's
set union, so the detailed JSON file changes too. -/
theorem merge_idempotent_counterexample :
    save_domains_to_file (some (save_domains_to_file none [" a"])) [" a"]
      ≠ save_domains_to_file none [" a"]
    ∧ (save_ip_data_to_file none
          (some (save_ip_data_to_file none none [("1.1.1.1", ["b", "b"])]).2)
          [("1.1.1.1", ["b", "b"])]).2
      ≠ (save_ip_data_to_file none none [("1.1.1.1", ["b", "b"])]).2 := by
  refine ⟨?_, ?_⟩
  · decide
  · decide

/-- Claim C1 (amended): merge idempotence holds provided every new domain
and every new IP key is strip-invariant, every new reputation list is
duplicate-free, and the new ip_data has distinct keys (as a Python dict
always does): re-running either save with the same new data reproduces the
domain file, the flat IP file and the detailed JSON file unchanged. -/
theorem merge_idempotent (domFile flatFile : Option (List String))
    (detailedFile : Option (List (String × List String)))
    (domains : List String) (ip_data : List (String × List String))
    (hdom : ∀ d ∈ domains, pyStrip d = d)
    (hips : ∀ p ∈ ip_data, pyStrip p.1 = p.1 ∧ p.2.Nodup)
    (hkeys : (ip_data.map Prod.fst).Nodup) :
    save_domains_to_file (some (save_domains_to_file domFile domains)) domains
      = save_domains_to_file domFile domains
    ∧ save_ip_data_to_file (some (save_ip_data_to_file flatFile detailedFile ip_data).1)
        (some (save_ip_data_to_file flatFile detailedFile ip_data).2) ip_data
      = save_ip_data_to_file flatFile detailedFile ip_data := by
  constructor
  · exact mergeFlat_idem domFile domains hdom
  · have hflat : mergeFlat (some (mergeFlat flatFile (ip_data.map Prod.fst)))
        (ip_data.map Prod.fst)
        = mergeFlat flatFile (ip_data.map Prod.fst) := by
      apply mergeFlat_idem
      intro x hx
      rw [List.mem_map] at hx
      obtain ⟨p, hp, hpx⟩ := hx
      rw [← hpx]
      exact (hips p hp).1
    have hdet : ip_data.foldl detailedStep (ip_data.foldl detailedStep (detailedFile.getD []))
        = ip_data.foldl detailedStep (detailedFile.getD []) := by
      apply foldl_detailedStep_covered
      exact detailed_invariant ip_data (detailedFile.getD []) hkeys (fun p hp => (hips p hp).2)
    show (mergeFlat (some (mergeFlat flatFile (ip_data.map Prod.fst))) (ip_data.map Prod.fst),
        ip_data.foldl detailedStep (ip_data.foldl detailedStep (detailedFile.getD [])))
      = (mergeFlat flatFile (ip_data.map Prod.fst),
        ip_data.foldl detailedStep (detailedFile.getD []))
    rw [hflat, hdet]

/-- Claim C1 witness: a concrete clean dataset merges idempotently. -/
theorem merge_idempotent_witness :
    save_domains_to_file (some (save_domains_to_file none ["d.example"])) ["d.example"]
      = save_domains_to_file none ["d.example"]
    ∧ save_ip_data_to_file (some (save_ip_data_to_file none none [("1.2.3.4", ["bot"])]).1)
        (some (save_ip_data_to_file none none [("1.2.3.4", ["bot"])]).2) [("1.2.3.4", ["bot"])]
      = save_ip_data_to_file none none [("1.2.3.4", ["bot"])] :=
  merge_idempotent none none none ["d.example"] [("1.2.3.4", ["bot"])]
    (by decide) (by decide) (by decide)

/-- Claim C2 counterexample: the detailed-JSON merge applies no blank
filter, so a whitespace-only IP key in the input ip_data is persisted to the
detailed JSON file. -/
theorem blank_persisted_counterexample :
    (save_ip_data_to_file none none [(" ", ["t"])]).2 = [(" ", ["t"])]
    ∧ pyStrip " " = "" :=
  ⟨rfl, rfl⟩

/-- Claim C2 (amended): no blank string is ever written to the flat IP list
or the domain list, for any input; the detailed JSON file carries no blank
filter, but its keys always come from the prior detailed file or from the
input ip_data, so a blank can only be persisted there if it was already
present in one of them. -/
theorem no_blank_persisted (domFile flatFile : Option (List String))
    (detailedFile : Option (List (String × List String)))
    (domains : List String) (ip_data : List (String × List String)) :
    (∀ x ∈ save_domains_to_file domFile domains, pyStrip x ≠ "")
    ∧ (∀ x ∈ (save_ip_data_to_file flatFile detailedFile ip_data).1, pyStrip x ≠ "")
    ∧ (∀ k ∈ ((save_ip_data_to_file flatFile detailedFile ip_data).2).map Prod.fst,
        k ∈ (detailedFile.getD []).map Prod.fst ∨ k ∈ ip_data.map Prod.fst) := by
  refine ⟨?_, ?_, ?_⟩
  · intro x hx
    have h2 := (List.mem_filter.mp hx).2
    simpa using h2
  · intro x hx
    have h2 := (List.mem_filter.mp hx).2
    simpa using h2
  · intro k hk
    exact mem_keys_foldl_detailedStep ip_data (detailedFile.getD []) k hk

/-- Claim C2 witness: a concrete persisted domain line is nonblank. -/
theorem no_blank_persisted_witness : pyStrip "d.example" ≠ "" :=
  (no_blank_persisted none none none ["d.example"] []).1 "d.example" (by decide)

/-! ### Lemmas about pagination and the watermark store -/

/-- Running the fetch loop across a block of full successful pages advances
the page counter and appends the pages' bodies in order. -/
theorem fetchLoop_full_pages (apiId apiKey : Option String)
    (http : List (String × PyVal) → PyHeaders → HttpResponse)
    (caid : PyVal) (since : Option Int) (pageSize : Nat) (bodies : Nat → List PyVal) :
    ∀ K fuel start acc,
      (∀ i, start ≤ i → i < start + K →
        (http (buildPageParams caid i pageSize since) (buildHeaders apiId apiKey)).status = 200
        ∧ pageIncidents
            (http (buildPageParams caid i pageSize since) (buildHeaders apiId apiKey)).body
            = .ok (bodies i)
        ∧ pageSize ≤ (bodies i).length) →
      fetchLoop apiId apiKey http caid since pageSize (K + fuel) start acc
        = fetchLoop apiId apiKey http caid since pageSize fuel (start + K)
            (acc ++ pagesConcat bodies start K) := by
  intro K
  induction K with
  | zero =>
    intro fuel start acc _
    simp [pagesConcat]
  | succ K ih =>
    intro fuel start acc hfull
    obtain ⟨hst, hparse, hlen⟩ := hfull start (by omega) (by omega)
    have hstep : fetchLoop apiId apiKey http caid since pageSize (K + fuel + 1) start acc
        = fetchLoop apiId apiKey http caid since pageSize (K + fuel) (start + 1)
            (acc ++ bodies start) := by
      rw [show fetchLoop apiId apiKey http caid since pageSize (K + fuel + 1) start acc
          = (let r := http (buildPageParams caid start pageSize since)
              (buildHeaders apiId apiKey);
            if r.status = 200 then
              match pageIncidents r.body with
              | .error e => some (.error e)
              | .ok incidents =>
                if incidents.length < pageSize then some (.ok (acc ++ incidents))
                else fetchLoop apiId apiKey http caid since pageSize (K + fuel) (start + 1)
                  (acc ++ incidents)
            else some (.ok acc)) from rfl]
      simp only [hst, if_pos rfl, hparse, if_true]
      rw [if_neg (Nat.not_lt.mpr hlen)]
    rw [show K + 1 + fuel = K + fuel + 1 from by omega, hstep]
    rw [ih fuel (start + 1) (acc ++ bodies start)
      (fun i h1 h2 => hfull i (by omega) (by omega))]
    rw [show pagesConcat bodies start (K + 1) = bodies start ++ pagesConcat bodies (start + 1) K
      from by rw [pagesConcat, pagesConcat, List.range'_succ, List.map_cons, List.flatten_cons]]
    rw [show start + 1 + K = start + (K + 1) from by omega, List.append_assoc]

/-- Claim C4: the pagination contract — after K full successful pages, a
200 page shorter than the page size ends the loop with the ordered
concatenation of all pages including the short (possibly empty) one, while a
non-success status ends it immediately with exactly the pages accumulated so
far, without raising; stated for any fuel bound large enough to reach the
terminal page. -/
theorem fetch_pagination (apiId apiKey : Option String)
    (http : List (String × PyVal) → PyHeaders → HttpResponse)
    (caid : PyVal) (since : Option Int) (pageSize : Nat)
    (bodies : Nat → List PyVal) (K : Nat)
    (hfull : ∀ i, 1 ≤ i → i ≤ K →
      (http (buildPageParams caid i pageSize since) (buildHeaders apiId apiKey)).status = 200
      ∧ pageIncidents
          (http (buildPageParams caid i pageSize since) (buildHeaders apiId apiKey)).body
          = .ok (bodies i)
      ∧ pageSize ≤ (bodies i).length) :
    (∀ bLast,
      (http (buildPageParams caid (K + 1) pageSize since) (buildHeaders apiId apiKey)).status
        = 200 →
      pageIncidents
          (http (buildPageParams caid (K + 1) pageSize since) (buildHeaders apiId apiKey)).body
        = .ok bLast →
      bLast.length < pageSize →
      ∀ fuel, K + 1 ≤ fuel →
        fetch_all_incidents_with_pagination apiId apiKey http caid since pageSize fuel
          = some (.ok (pagesConcat bodies 1 K ++ bLast)))
    ∧ ((http (buildPageParams caid (K + 1) pageSize since) (buildHeaders apiId apiKey)).status
        ≠ 200 →
      ∀ fuel, K + 1 ≤ fuel →
        fetch_all_incidents_with_pagination apiId apiKey http caid since pageSize fuel
          = some (.ok (pagesConcat bodies 1 K))) := by
  have hrun : ∀ fuel, K + 1 ≤ fuel →
      fetch_all_incidents_with_pagination apiId apiKey http caid since pageSize fuel
        = fetchLoop apiId apiKey http caid since pageSize (fuel - K) (K + 1)
            (pagesConcat bodies 1 K) := by
    intro fuel hfuel
    obtain ⟨m, hm⟩ : ∃ m, fuel = K + m := ⟨fuel - K, by omega⟩
    subst hm
    rw [show K + m - K = m from by omega]
    rw [fetch_all_incidents_with_pagination,
      fetchLoop_full_pages apiId apiKey http caid since pageSize bodies K m 1 []
        (fun i h1 h2 => hfull i h1 (by omega))]
    rw [show (1 : Nat) + K = K + 1 from by omega, List.nil_append]
  constructor
  · intro bLast hst hparse hlen fuel hfuel
    rw [hrun fuel hfuel]
    obtain ⟨m, hm⟩ : ∃ m, fuel - K = m + 1 := ⟨fuel - K - 1, by omega⟩
    rw [hm]
    rw [show fetchLoop apiId apiKey http caid since pageSize (m + 1) (K + 1)
        (pagesConcat bodies 1 K)
        = (let r := http (buildPageParams caid (K + 1) pageSize since)
            (buildHeaders apiId apiKey);
          if r.status = 200 then
            match pageIncidents r.body with
            | .error e => some (.error e)
            | .ok incidents =>
              if incidents.length < pageSize then
                some (.ok (pagesConcat bodies 1 K ++ incidents))
              else fetchLoop apiId apiKey http caid since pageSize m (K + 1 + 1)
                (pagesConcat bodies 1 K ++ incidents)
          else some (.ok (pagesConcat bodies 1 K))) from rfl]
    simp only [hst, if_pos rfl, hparse, if_true]
    rw [if_pos hlen]
  · intro hst fuel hfuel
    rw [hrun fuel hfuel]
    obtain ⟨m, hm⟩ : ∃ m, fuel - K = m + 1 := ⟨fuel - K - 1, by omega⟩
    rw [hm]
    rw [show fetchLoop apiId apiKey http caid since pageSize (m + 1) (K + 1)
        (pagesConcat bodies 1 K)
        = (let r := http (buildPageParams caid (K + 1) pageSize since)
            (buildHeaders apiId apiKey);
          if r.status = 200 then
            match pageIncidents r.body with
            | .error e => some (.error e)
            | .ok incidents =>
              if incidents.length < pageSize then
                some (.ok (pagesConcat bodies 1 K ++ incidents))
              else fetchLoop apiId apiKey http caid since pageSize m (K + 1 + 1)
                (pagesConcat bodies 1 K ++ incidents)
          else some (.ok (pagesConcat bodies 1 K))) from rfl]
    rw [if_neg hst]

/-- Claim C4 witness: one full page of size 1 followed by an empty page. -/
theorem fetch_pagination_witness :
    fetch_all_incidents_with_pagination none none
      (fun ps _ => match assocGet ps "page" with
        | some (PyVal.pint 1) => ⟨200, PyVal.plist [PyVal.pdict []]⟩
        | _ => ⟨200, PyVal.plist []⟩)
      (PyVal.pstr "c") none 1 2
      = some (.ok (pagesConcat (fun _ => [PyVal.pdict []]) 1 1 ++ [])) :=
  (fetch_pagination none none
    (fun ps _ => match assocGet ps "page" with
      | some (PyVal.pint 1) => ⟨200, PyVal.plist [PyVal.pdict []]⟩
      | _ => ⟨200, PyVal.plist []⟩)
    (PyVal.pstr "c") none 1 (fun _ => [PyVal.pdict []]) 1
    (fun i h1 h2 => by
      have hi : i = 1 := by omega
      subst hi
      exact ⟨rfl, rfl, by decide⟩)).1
    [] rfl rfl (by decide) 2 (by decide)

/-- Claim C7 counterexample: the paginated fetcher performs no credential
check — with both credentials unset and a non-success response it completes
normally, returning the empty accumulation instead of raising a
configuration error. -/
theorem missing_credentials_counterexample :
    fetch_all_incidents_with_pagination none none (fun _ _ => ⟨401, PyVal.pstr ""⟩)
      (PyVal.pstr "c") none 100 5 = some (.ok []) := rfl

/-- Claim C7 (amended): the single-request helper `get_imperva_incidents`
raises `ValueError` when either credential is unset or empty, but the
paginated fetcher used by the main flow performs no credential check — a
failed page is handled by logging and returning the incidents accumulated so
far, regardless of credentials. -/
theorem missing_credentials (apiId apiKey : Option String)
    (http : List (String × PyVal) → PyHeaders → HttpResponse)
    (caid : PyVal) (since : Option Int) (pageSize : Nat)
    (hmiss : truthyOptStr apiId = false ∨ truthyOptStr apiKey = false) :
    get_imperva_incidents apiId apiKey http caid since = .error .valueError
    ∧ ∀ fuel, 1 ≤ fuel →
        (http (buildPageParams caid 1 pageSize since) (buildHeaders apiId apiKey)).status ≠ 200 →
        fetch_all_incidents_with_pagination apiId apiKey http caid since pageSize fuel
          = some (.ok []) := by
  constructor
  · unfold get_imperva_incidents
    rw [if_pos hmiss]
  · intro fuel hfuel hstatus
    obtain ⟨m, hm⟩ : ∃ m, fuel = m + 1 := ⟨fuel - 1, by omega⟩
    subst hm
    rw [show fetch_all_incidents_with_pagination apiId apiKey http caid since pageSize (m + 1)
        = (let r := http (buildPageParams caid 1 pageSize since) (buildHeaders apiId apiKey);
          if r.status = 200 then
            match pageIncidents r.body with
            | .error e => some (.error e)
            | .ok incidents =>
              if incidents.length < pageSize then some (.ok ([] ++ incidents))
              else fetchLoop apiId apiKey http caid since pageSize m 2 ([] ++ incidents)
          else some (.ok [])) from rfl]
    rw [if_neg hstatus]

/-- Claim C7 witness: concrete missing credentials. -/
theorem missing_credentials_witness :
    get_imperva_incidents none none (fun _ _ => ⟨401, PyVal.pstr ""⟩) (PyVal.pstr "c") none
      = .error .valueError
    ∧ fetch_all_incidents_with_pagination none none (fun _ _ => ⟨401, PyVal.pstr ""⟩)
        (PyVal.pstr "c") none 100 7 = some (.ok []) :=
  have h := missing_credentials none none (fun _ _ => ⟨401, PyVal.pstr ""⟩)
    (PyVal.pstr "c") none 100 (Or.inl rfl)
  ⟨h.1, h.2 7 (by decide) (by decide)⟩

/-- Claim C5 counterexample: a stored watermark of 0 is loaded as the
integer 0 but, being falsy, is dropped — no `from` parameter is sent, so the
value is not passed verbatim for every stored watermark. -/
theorem watermark_zero_counterexample :
    get_last_query_timestamp
        (fun n => if n = "data/last_query_timestamp.txt" then some "0" else none) none
      = .ok (some 0)
    ∧ (buildPageParams (PyVal.pstr "c") 1 100 (some 0)).find?
        (fun p => decide (p.1 = "from")) = none :=
  ⟨rfl, rfl⟩

/-- Claim C5 (amended): every nonzero stored watermark value returned by the
watermark load is passed verbatim as the `from` parameter of every page
request; in particular 1700000000000 is; a stored watermark of 0 is treated
as absent by the truthiness test and omitted. -/
theorem watermark_propagation (fs : FileSys) (content : String) (w : Int)
    (hfs : fs "data/last_query_timestamp.txt" = some content)
    (hparse : pyIntOfString (pyStrip content) = .ok w)
    (hnz : w ≠ 0) :
    get_last_query_timestamp fs none = .ok (some w)
    ∧ ∀ caid page pageSize,
        (buildPageParams caid page pageSize (some w)).find? (fun p => decide (p.1 = "from"))
          = some ("from", .pint w) := by
  constructor
  · have h1 : get_last_query_timestamp fs none
        = (pyIntOfString (pyStrip content)).map some := by
      show (match fs "data/last_query_timestamp.txt" with
        | none => (.ok none : Except PyErr (Option Int))
        | some c => (pyIntOfString (pyStrip c)).map some)
        = (pyIntOfString (pyStrip content)).map some
      rw [hfs]
    rw [h1, hparse]
    rfl
  · intro caid page pageSize
    show ((if w ≠ 0 then
        [("caid", caid), ("page", PyVal.pint page), ("page_size", PyVal.pint pageSize)]
          ++ [("from", PyVal.pint w)]
      else [("caid", caid), ("page", PyVal.pint page), ("page_size", PyVal.pint pageSize)])).find?
        (fun p => decide (p.1 = "from")) = some ("from", .pint w)
    rw [if_pos hnz]
    simp [List.find?]

/-- Claim C5 witness: the spec's concrete watermark 1700000000000. -/
theorem watermark_propagation_witness :
    get_last_query_timestamp
        (fun n => if n = "data/last_query_timestamp.txt"
          then some "1700000000000" else none) none
      = .ok (some 1700000000000)
    ∧ (buildPageParams (PyVal.pstr "c") 1 100 (some 1700000000000)).find?
        (fun p => decide (p.1 = "from")) = some ("from", .pint 1700000000000) :=
  have h := watermark_propagation
    (fun n => if n = "data/last_query_timestamp.txt" then some "1700000000000" else none)
    "1700000000000" 1700000000000 rfl rfl (by decide)
  ⟨h.1, h.2 (PyVal.pstr "c") 1 100⟩

/-- Claim C8: watermark load behaviour — the load returns the stored integer
when the file at the fixed default path exists and its stripped content
parses as an integer, returns `none` when the file is absent, and propagates
a `ValueError` when the content does not parse. -/
theorem watermark_load (fs : FileSys) :
    (fs "data/last_query_timestamp.txt" = none →
      get_last_query_timestamp fs none = .ok none)
    ∧ (∀ content n, fs "data/last_query_timestamp.txt" = some content →
        pyIntOfString (pyStrip content) = .ok n →
        get_last_query_timestamp fs none = .ok (some n))
    ∧ (∀ content, fs "data/last_query_timestamp.txt" = some content →
        pyIntOfString (pyStrip content) = .error .valueError →
        get_last_query_timestamp fs none = .error .valueError) := by
  refine ⟨?_, ?_, ?_⟩
  · intro h
    show (match fs "data/last_query_timestamp.txt" with
      | none => (.ok none : Except PyErr (Option Int))
      | some content => (pyIntOfString (pyStrip content)).map some) = .ok none
    rw [h]
  · intro content n h hp
    have h1 : get_last_query_timestamp fs none
        = (pyIntOfString (pyStrip content)).map some := by
      show (match fs "data/last_query_timestamp.txt" with
        | none => (.ok none : Except PyErr (Option Int))
        | some c => (pyIntOfString (pyStrip c)).map some)
        = (pyIntOfString (pyStrip content)).map some
      rw [h]
    rw [h1, hp]
    rfl
  · intro content h hp
    have h1 : get_last_query_timestamp fs none
        = (pyIntOfString (pyStrip content)).map some := by
      show (match fs "data/last_query_timestamp.txt" with
        | none => (.ok none : Except PyErr (Option Int))
        | some c => (pyIntOfString (pyStrip c)).map some)
        = (pyIntOfString (pyStrip content)).map some
      rw [h]
    rw [h1, hp]
    rfl

/-- Claim C8 witness: the three behaviours at concrete stores. -/
theorem watermark_load_witness :
    get_last_query_timestamp (fun _ => none) none = .ok none
    ∧ get_last_query_timestamp
        (fun n => if n = "data/last_query_timestamp.txt"
          then some " 1700000000000 " else none) none = .ok (some 1700000000000)
    ∧ get_last_query_timestamp
        (fun n => if n = "data/last_query_timestamp.txt"
          then some "12x" else none) none = .error .valueError :=
  ⟨(watermark_load (fun _ => none)).1 rfl,
   (watermark_load _).2.1 " 1700000000000 " 1700000000000 rfl rfl,
   (watermark_load _).2.2 "12x" rfl rfl⟩

/-- String append acts as list append on the underlying characters. -/
theorem string_data_append (a b : String) : (a ++ b).data = a.data ++ b.data := by
  cases a with
  | mk da =>
    cases b with
    | mk db => rfl

/-- The default timestamp-named watermark path never equals the fixed load
path. -/
theorem defaultTarget_ne_fixed (now : String) :
    ("data/" ++ now ++ "_last_query_timestamp.txt") ≠ "data/last_query_timestamp.txt" := by
  intro heq
  have hd := congrArg String.data heq
  rw [string_data_append, string_data_append] at hd
  have hlen := congrArg List.length hd
  rw [List.length_append, List.length_append] at hlen
  have h5 : ("data/".data).length = 5 := by decide
  have h25 : ("_last_query_timestamp.txt".data).length = 25 := by decide
  have h29 : ("data/last_query_timestamp.txt".data).length = 29 := by decide
  omega

/-- No resolved timestamp-suffixed filename equals the fixed load path. -/
theorem saveTarget_ne_fixed (t : String) :
    resolveDataFilename (t ++ "_last_query_timestamp.txt")
      ≠ "data/last_query_timestamp.txt" := by
  rw [resolveDataFilename]
  by_cases h : (t ++ "_last_query_timestamp.txt").startsWith "data"
  · rw [if_pos h]
    intro heq
    have hd := congrArg String.data heq
    rw [string_data_append] at hd
    have hsplit : "data/last_query_timestamp.txt".data
        = "data".data ++ "/last_query_timestamp.txt".data := by decide
    rw [hsplit] at hd
    have hlen : ("_last_query_timestamp.txt".data).length
        = ("/last_query_timestamp.txt".data).length := by decide
    have h2 := (List.append_inj' hd hlen).2
    exact absurd h2 (by decide)
  · rw [if_neg h]
    intro heq
    have hd := congrArg String.data heq
    rw [string_data_append, string_data_append] at hd
    have hlen := congrArg List.length hd
    rw [List.length_append, List.length_append] at hlen
    have h5 : ("data/".data).length = 5 := by decide
    have h25 : ("_last_query_timestamp.txt".data).length = 25 := by decide
    have h29 : ("data/last_query_timestamp.txt".data).length = 29 := by decide
    omega

/-- Claim C6: the default entry point's watermark save/load round trip
fails — the watermark is written to a timestamp-named file (both by the
default filename and by the main flow's explicit timestamp-named filename),
while the no-filename load reads the fixed path, so after a run that only
produced timestamp-named files the next load returns `none` and the next
fetch's request parameters carry no `from` filter. -/
theorem watermark_roundtrip_mismatch (fs : FileSys) (now : String) (ts : Int)
    (fnameOpt : Option String)
    (hshape : fnameOpt = none ∨ ∃ t, fnameOpt = some (t ++ "_last_query_timestamp.txt"))
    (habsent : fs "data/last_query_timestamp.txt" = none) :
    get_last_query_timestamp (save_last_query_timestamp now ts fnameOpt fs) none = .ok none
    ∧ ∀ caid page pageSize,
        (buildPageParams caid page pageSize none).find? (fun p => decide (p.1 = "from"))
          = none := by
  constructor
  · have hread : save_last_query_timestamp now ts fnameOpt fs
        "data/last_query_timestamp.txt" = none := by
      rcases hshape with h | ⟨t, h⟩
      · subst h
        show (if "data/last_query_timestamp.txt"
            = ("data/" ++ now ++ "_last_query_timestamp.txt")
          then some (toString ts) else fs "data/last_query_timestamp.txt") = none
        rw [if_neg (fun he => defaultTarget_ne_fixed now he.symm), habsent]
      · subst h
        have hemp : (t ++ "_last_query_timestamp.txt") ≠ "" := by
          intro he
          have hd := congrArg String.data he
          rw [string_data_append] at hd
          have hlen := congrArg List.length hd
          rw [List.length_append] at hlen
          have h25 : ("_last_query_timestamp.txt".data).length = 25 := by decide
          have h0 : (("" : String).data).length = 0 := by decide
          omega
        show (if "data/last_query_timestamp.txt"
            = (if (t ++ "_last_query_timestamp.txt") = ""
               then "data/" ++ now ++ "_last_query_timestamp.txt"
               else resolveDataFilename (t ++ "_last_query_timestamp.txt"))
          then some (toString ts) else fs "data/last_query_timestamp.txt") = none
        rw [if_neg hemp, if_neg (fun he => saveTarget_ne_fixed t he.symm), habsent]
    show (match save_last_query_timestamp now ts fnameOpt fs
        "data/last_query_timestamp.txt" with
      | none => (.ok none : Except PyErr (Option Int))
      | some c => (pyIntOfString (pyStrip c)).map some) = .ok none
    rw [hread]
  · intro caid page pageSize
    show ([("caid", caid), ("page", PyVal.pint page),
        ("page_size", PyVal.pint pageSize)]).find? (fun p => decide (p.1 = "from")) = none
    simp [List.find?]

/-- Claim C6 witness: a concrete run writing only a timestamp-named file. -/
theorem watermark_roundtrip_mismatch_witness :
    get_last_query_timestamp (save_last_query_timestamp "2025" 1700000000000
        (some ("2025-01-01-000000" ++ "_last_query_timestamp.txt")) (fun _ => none)) none
      = .ok none
    ∧ (buildPageParams (PyVal.pstr "c") 1 100 none).find? (fun p => decide (p.1 = "from"))
        = none :=
  have h := watermark_roundtrip_mismatch (fun _ => none) "2025" 1700000000000
    (some ("2025-01-01-000000" ++ "_last_query_timestamp.txt"))
    (Or.inr ⟨"2025-01-01-000000", rfl⟩) rfl
  ⟨h.1, h.2 (PyVal.pstr "c") 1 100⟩
